import Mathlib

/-!
Verification development for a NEO-style blockchain node:
a shallow embedding of the VM opcode handlers (`pkg/vm/vm.go`),
the network server's relay and inventory handlers
(`pkg/network/server_config.go`) and the binary serialization of the
wire/persistence payloads (`pkg/network/payload/version.go`,
`pkg/network/payload/getblocks.go`, `pkg/core/transaction/publish.go`).
Byte strings are `List Nat` (each entry one byte value), big integers are
`Int`, and fallible opcode handlers return `Except String`.
-/

namespace NeoGo

set_option maxRecDepth 4000

/-- MaxArraySize is the maximum array size allowed in the VM (vm.go). -/
def MaxArraySize : Nat := 1024

/-- MaxItemSize is the maximum item size allowed in the VM (vm.go). -/
def MaxItemSize : Nat := 1024 * 1024

/-- MaxInvocationStackSize is the maximum size of an invocation stack (vm.go). -/
def MaxInvocationStackSize : Nat := 1024

/-- MaxBigIntegerSizeBits is the maximum size of a BigInt item in bits (vm.go). -/
def MaxBigIntegerSizeBits : Nat := 32 * 8

/-- MaxStackSize is the maximum number of items allowed to be on all
(item-counted) stacks at once (vm.go). -/
def MaxStackSize : Nat := 2 * 1024

/-- maxSHLArg from vm.go. -/
def maxSHLArg : Int := (MaxBigIntegerSizeBits : Int)

/-- minSHLArg from vm.go. -/
def minSHLArg : Int := -(MaxBigIntegerSizeBits : Int)

/-- SUBSTR handler from `VM.execute` (vm.go). The length `l`, the offset `o`
and the string `s` are the three already-popped operands, popped in that
order. An offset beyond the end of the string pushes the empty string
(the FIXME branch kept for NEO 2.0 compatibility) instead of faulting. -/
def execSUBSTR (l o : Int) (s : List Nat) : Except String (List Nat) :=
  if l < 0 then .error ("negative length")
  else if o < 0 then .error ("negative index")
  else if (s.length : Int) < o then .ok []
  else
    let last : Int := if (s.length : Int) < l + o then (s.length : Int) else l + o
    .ok ((s.take last.toNat).drop o.toNat)

/-- LEFT handler from `VM.execute` (vm.go): a negative length faults, an
over-long length is clamped to the string length. -/
def execLEFT (l : Int) (s : List Nat) : Except String (List Nat) :=
  if l < 0 then .error ("negative length")
  else
    let t : Int := if (s.length : Int) < l then (s.length : Int) else l
    .ok (s.take t.toNat)

/-- RIGHT handler from `VM.execute` (vm.go): a negative length faults, and an
over-long length makes the slice expression `s[len(s)-l:]` panic (negative
slice bound), which the dispatcher turns into a fault. -/
def execRIGHT (l : Int) (s : List Nat) : Except String (List Nat) :=
  if l < 0 then .error ("negative length")
  else if (s.length : Int) < l then .error ("slice bounds out of range")
  else .ok (s.drop (s.length - l.toNat))

/-- Bit length of a natural number, computed with explicit fuel
(mirrors `big.Int.BitLen`, which is the bit length of the absolute value). -/
def bitLenFuel : Nat → Nat → Nat
  | 0, _ => 0
  | _ + 1, 0 => 0
  | fuel + 1, n + 1 => bitLenFuel fuel ((n + 1) / 2) + 1

/-- Bit length of the absolute value of an integer, as `big.Int.BitLen`. -/
def intBitLen (a : Int) : Nat := bitLenFuel a.natAbs a.natAbs

/-- Go conversion `uint(b)` of a 64-bit signed integer: reduction
modulo 2^64 into a non-negative value. -/
def goUint64 (b : Int) : Nat := (b % ((2 : Int) ^ 64)).toNat

/-- The two shift opcodes handled by one `case SHL, SHR` branch in vm.go. -/
inductive ShiftOp where
  | shl
  | shr
  deriving DecidableEq

/-- SHL/SHR handler from `VM.execute` (vm.go). `b` is the popped shift count
(after its conversion to int64); the remaining evaluation stack is `stack`.
A zero count returns early leaving the stack unchanged; a count outside
`[minSHLArg, maxSHLArg]` panics; otherwise the operand is popped, checked to
fit `MaxBigIntegerSizeBits`, shifted by `uint(b)` and the result checked
again before being pushed. -/
def execSHIFT (op : ShiftOp) (b : Int) (stack : List Int) : Except String (List Int) :=
  if b = 0 then .ok stack
  else if b < minSHLArg ∨ maxSHLArg < b then .error ("operand out of range")
  else
    match stack with
    | [] => .error ("no top-level element found")
    | a :: rest =>
      if MaxBigIntegerSizeBits < intBitLen a then .error ("big integer is too big")
      else
        let item : Int :=
          match op with
          | .shl => a * 2 ^ goUint64 b
          | .shr => Int.fdiv a (2 ^ goUint64 b)
        if MaxBigIntegerSizeBits < intBitLen item then .error ("big integer is too big")
        else .ok (item :: rest)

/-- C5: for every byte string `s` and non-negative offset `o` with
`o > len(s)`, SUBSTR with a non-negative requested length pushes the empty
byte string and does not fault. -/
theorem substr_big_offset_pushes_empty (l o : Int) (s : List Nat)
    (hl : 0 ≤ l) (ho : 0 ≤ o) (h : (s.length : Int) < o) :
    execSUBSTR l o s = .ok [] := by
  unfold execSUBSTR
  rw [if_neg (by omega), if_neg (by omega), if_pos h]

/-- Witness for C5 at `s = "abcdef"`, `o = 7`, `l = 1` (the inputs of
TestSUBSTRBadOffset). -/
theorem substr_big_offset_pushes_empty_witness :
    execSUBSTR 1 7 [97, 98, 99, 100, 101, 102] = .ok [] :=
  substr_big_offset_pushes_empty 1 7 [97, 98, 99, 100, 101, 102]
    (by decide) (by decide) (by decide)

/-- C10: LEFT and RIGHT are asymmetric on an over-long requested length:
LEFT clamps and pushes the whole string without faulting while RIGHT
faults; both fault on a negative length. -/
theorem left_right_overlong_asymmetry (l : Int) (s : List Nat) :
    ((s.length : Int) < l →
      execLEFT l s = .ok s ∧ execRIGHT l s = .error ("slice bounds out of range"))
    ∧ (l < 0 →
      execLEFT l s = .error ("negative length") ∧
      execRIGHT l s = .error ("negative length")) := by
  constructor
  · intro h
    have hl : ¬ l < 0 := by omega
    constructor
    · unfold execLEFT
      rw [if_neg hl]
      simp only [if_pos h, Int.toNat_natCast, List.take_length]
    · unfold execRIGHT
      rw [if_neg hl, if_pos h]
  · intro h
    exact ⟨by unfold execLEFT; rw [if_pos h], by unfold execRIGHT; rw [if_pos h]⟩

/-- Witness for C10 at `s = "abcdef"` with `l = 8` (TestLEFTGoodLen /
TestRIGHTBadLen) and `l = -1`. -/
theorem left_right_overlong_asymmetry_witness :
    execLEFT 8 [97, 98, 99, 100, 101, 102] = .ok [97, 98, 99, 100, 101, 102] ∧
    execRIGHT 8 [97, 98, 99, 100, 101, 102] = .error ("slice bounds out of range") ∧
    execLEFT (-1) [97, 98, 99, 100, 101, 102] = .error ("negative length") :=
  ⟨((left_right_overlong_asymmetry 8 [97, 98, 99, 100, 101, 102]).1 (by decide)).1,
   ((left_right_overlong_asymmetry 8 [97, 98, 99, 100, 101, 102]).1 (by decide)).2,
   ((left_right_overlong_asymmetry (-1) [97, 98, 99, 100, 101, 102]).2 (by decide)).1⟩

theorem bitLenFuel_gt (k : Nat) :
    ∀ fuel n : Nat, 2 ^ k ≤ n → k < fuel → k < bitLenFuel fuel n := by
  induction k with
  | zero =>
    intro fuel n hn hf
    have hn1 : 1 ≤ n := le_trans Nat.one_le_two_pow hn
    obtain ⟨f, rfl⟩ : ∃ f, fuel = f + 1 := ⟨fuel - 1, by omega⟩
    obtain ⟨m, rfl⟩ : ∃ m, n = m + 1 := ⟨n - 1, by omega⟩
    show 0 < bitLenFuel f ((m + 1) / 2) + 1
    omega
  | succ k ih =>
    intro fuel n hn hf
    have hn1 : 1 ≤ n := le_trans Nat.one_le_two_pow hn
    obtain ⟨f, rfl⟩ : ∃ f, fuel = f + 1 := ⟨fuel - 1, by omega⟩
    obtain ⟨m, rfl⟩ : ∃ m, n = m + 1 := ⟨n - 1, by omega⟩
    show k + 1 < bitLenFuel f ((m + 1) / 2) + 1
    have hp : 2 ^ (k + 1) = 2 * 2 ^ k := by ring
    have h1 : 2 ^ k ≤ (m + 1) / 2 := by omega
    have h2 := ih f ((m + 1) / 2) h1 (by omega)
    omega

theorem bitLenFuel_lt (fuel : Nat) :
    ∀ n : Nat, n ≤ fuel → n < 2 ^ bitLenFuel fuel n := by
  induction fuel with
  | zero =>
    intro n hn
    have h0 : n = 0 := by omega
    subst h0
    exact pow_pos (by norm_num) _
  | succ f ih =>
    intro n hn
    match n with
    | 0 => exact pow_pos (by norm_num) _
    | m + 1 =>
      show m + 1 < 2 ^ (bitLenFuel f ((m + 1) / 2) + 1)
      have h1 : (m + 1) / 2 ≤ f := by omega
      have h2 := ih ((m + 1) / 2) h1
      have hp : 2 ^ (bitLenFuel f ((m + 1) / 2) + 1) =
          2 * 2 ^ bitLenFuel f ((m + 1) / 2) := by ring
      omega

theorem intBitLen_le_bound (a : Int) (k : Nat) (h : intBitLen a ≤ k) :
    a.natAbs < 2 ^ k := by
  have h1 := bitLenFuel_lt a.natAbs a.natAbs le_rfl
  have h2 : (2 : Nat) ^ bitLenFuel a.natAbs a.natAbs ≤ 2 ^ k :=
    Nat.pow_le_pow_right (by norm_num) h
  omega

theorem intBitLen_gt_bound (a : Int) (k : Nat)
    (h1 : 2 ^ k ≤ a.natAbs) (h2 : k < a.natAbs) : k < intBitLen a :=
  bitLenFuel_gt k a.natAbs a.natAbs h1 h2

theorem goUint64_pos_small (b : Int) (h1 : 0 < b) (h2 : b ≤ 256) :
    goUint64 b = b.toNat := by
  unfold goUint64
  rw [Int.emod_eq_of_lt (by omega) (by norm_num; omega)]

theorem goUint64_neg (b : Int) (h1 : -256 ≤ b) (h2 : b < 0) :
    256 ≤ goUint64 b := by
  unfold goUint64
  have h64 : ((2 : Int) ^ 64) = 18446744073709551616 := by norm_num
  rw [h64]
  omega

/-- SHR with a negative in-range count: `uint(b)` wraps the count to at
least 2^64 − 256 bit positions, so the right shift empties any 256-bit
operand, pushing 0 for a non-negative operand and −1 (the floor) for a
negative one. -/
theorem execSHIFT_shr_negcount (b a : Int) (rest : List Int)
    (hb1 : -256 ≤ b) (hb2 : b < 0)
    (ha : intBitLen a ≤ MaxBigIntegerSizeBits) :
    execSHIFT .shr b (a :: rest) = .ok ((if 0 ≤ a then 0 else -1) :: rest) := by
  have hmin : minSHLArg = -256 := by decide
  have hmax : maxSHLArg = 256 := by decide
  have hM : MaxBigIntegerSizeBits = 256 := by decide
  have hg : 256 ≤ goUint64 b := goUint64_neg b hb1 hb2
  have habs : a.natAbs < 2 ^ 256 := intBitLen_le_bound a 256 (by omega)
  have hn : (2 : Nat) ^ 256 ≤ 2 ^ goUint64 b := Nat.pow_le_pow_right (by norm_num) hg
  have hpow : (2 : Int) ^ 256 ≤ 2 ^ goUint64 b := by exact_mod_cast hn
  have hfd : Int.fdiv a (2 ^ goUint64 b) = if 0 ≤ a then 0 else -1 := by
    rw [Int.fdiv_eq_ediv _ (by positivity)]
    have h1 : a ≤ ((a.natAbs : Int)) := Int.le_natAbs
    have h2 : ((a.natAbs : Int)) < (2 : Int) ^ 256 := by exact_mod_cast habs
    by_cases h0 : 0 ≤ a
    · rw [if_pos h0]
      exact Int.ediv_eq_zero_of_lt h0 (by omega)
    · rw [if_neg h0]
      have hz : (a + 2 ^ goUint64 b) / 2 ^ goUint64 b = 0 :=
        Int.ediv_eq_zero_of_lt (by omega) (by omega)
      have key := Int.add_mul_ediv_right (a + 2 ^ goUint64 b) (-1)
        (show (2 : Int) ^ goUint64 b ≠ 0 by positivity)
      have harg : a + 2 ^ goUint64 b + -1 * 2 ^ goUint64 b = a := by ring
      rw [harg, hz] at key
      simpa using key
  have hsmall : ¬ MaxBigIntegerSizeBits < intBitLen (if 0 ≤ a then (0 : Int) else -1) := by
    by_cases h0 : 0 ≤ a
    · rw [if_pos h0]
      decide
    · rw [if_neg h0]
      decide
  unfold execSHIFT
  rw [if_neg (by omega), if_neg (by rw [hmin, hmax]; omega)]
  simp only [if_neg (show ¬ MaxBigIntegerSizeBits < intBitLen a by omega), hfd]
  rw [if_neg hsmall]

/-- SHL with a negative in-range count and a non-zero operand: the wrapped
shift amount makes the result exceed 256 bits, so the size check faults. -/
theorem execSHIFT_shl_negcount (b a : Int) (rest : List Int)
    (hb1 : -256 ≤ b) (hb2 : b < 0)
    (ha : intBitLen a ≤ MaxBigIntegerSizeBits) (ha0 : a ≠ 0) :
    execSHIFT .shl b (a :: rest) = .error ("big integer is too big") := by
  have hmin : minSHLArg = -256 := by decide
  have hmax : maxSHLArg = 256 := by decide
  have hM : MaxBigIntegerSizeBits = 256 := by decide
  have hg : 256 ≤ goUint64 b := goUint64_neg b hb1 hb2
  have hn : (2 : Nat) ^ 256 ≤ 2 ^ goUint64 b := Nat.pow_le_pow_right (by norm_num) hg
  have hbig : MaxBigIntegerSizeBits < intBitLen (a * 2 ^ goUint64 b) := by
    rw [hM]
    have habs1 : 1 ≤ a.natAbs := by omega
    have hmul : 1 * 2 ^ goUint64 b ≤ a.natAbs * 2 ^ goUint64 b :=
      Nat.mul_le_mul_right _ habs1
    rw [one_mul] at hmul
    have h4 : 256 < (2 : Nat) ^ 256 := Nat.lt_pow_self (by norm_num) 256
    apply intBitLen_gt_bound
    · rw [Int.natAbs_mul, Int.natAbs_pow]
      have h3 : (2 : Int).natAbs = 2 := rfl
      rw [h3]
      omega
    · rw [Int.natAbs_mul, Int.natAbs_pow]
      have h3 : (2 : Int).natAbs = 2 := rfl
      rw [h3]
      omega
  unfold execSHIFT
  rw [if_neg (by omega), if_neg (by rw [hmin, hmax]; omega)]
  simp only [if_neg (show ¬ MaxBigIntegerSizeBits < intBitLen a by omega)]
  rw [if_pos hbig]

/-- SHL with a negative in-range count and a zero operand: the shift of
zero is zero, which passes the size check and is pushed. -/
theorem execSHIFT_shl_negcount_zero (b : Int) (rest : List Int)
    (hb1 : -256 ≤ b) (hb2 : b < 0) :
    execSHIFT .shl b ((0 : Int) :: rest) = .ok (0 :: rest) := by
  have hmin : minSHLArg = -256 := by decide
  have hmax : maxSHLArg = 256 := by decide
  unfold execSHIFT
  rw [if_neg (by omega), if_neg (by rw [hmin, hmax]; omega)]
  simp only [if_neg (show ¬ MaxBigIntegerSizeBits < intBitLen 0 by decide), zero_mul]

/-- C8 counterexample: at the in-range non-zero shift count −2 the code does
not produce the arbitrary-precision shift of the operand: SHR on operand 5
pushes 0, which is neither 5 shifted right by 2 (= 1) nor 5 shifted left by
2 (= 20), and SHL on operand 5 faults instead of pushing a shifted operand
— `uint(b)` wraps the negative count to a near-2^64 shift amount. -/
theorem shift_negative_count_counterexample :
    execSHIFT .shr (-2) [5] = .ok [0] ∧
    execSHIFT .shl (-2) [5] = .error ("big integer is too big") ∧
    Int.fdiv 5 (2 ^ 2) = 1 ∧ (5 : Int) * 2 ^ 2 = 20 := by
  refine ⟨?_, ?_, by decide, by decide⟩
  · have h := execSHIFT_shr_negcount (-2) 5 [] (by decide) (by decide) (by decide)
    have e : (if (0 : Int) ≤ 5 then (0 : Int) else -1) = 0 := by decide
    rw [e] at h
    exact h
  · exact execSHIFT_shl_negcount (-2) 5 [] (by decide) (by decide) (by decide) (by decide)

/-- C8 (amended): a zero shift count is a no-op; an int64-representable
count outside ±256 faults; a positive in-range count shifts the operand
with arbitrary-precision semantics, faulting when the operand or the result
exceeds 256 bits; for a negative in-range count the Go conversion `uint(b)`
wraps the count into a near-2^64 shift amount, so SHR pushes 0 for a
non-negative operand and −1 for a negative operand, and SHL faults on a
non-zero operand (and pushes 0 for a zero operand), rather than shifting by
the negative count. -/
theorem shift_semantics_amended :
    (∀ (op : ShiftOp) (st : List Int), execSHIFT op 0 st = .ok st)
    ∧ (∀ (op : ShiftOp) (b : Int) (st : List Int),
        -(2 ^ 63) ≤ b → b < 2 ^ 63 → (b < -256 ∨ 256 < b) →
        execSHIFT op b st = .error ("operand out of range"))
    ∧ (∀ (b a : Int) (rest : List Int), 0 < b → b ≤ 256 →
        intBitLen a ≤ MaxBigIntegerSizeBits →
        intBitLen (a * 2 ^ b.toNat) ≤ MaxBigIntegerSizeBits →
        execSHIFT .shl b (a :: rest) = .ok (a * 2 ^ b.toNat :: rest))
    ∧ (∀ (b a : Int) (rest : List Int), 0 < b → b ≤ 256 →
        intBitLen a ≤ MaxBigIntegerSizeBits →
        intBitLen (Int.fdiv a (2 ^ b.toNat)) ≤ MaxBigIntegerSizeBits →
        execSHIFT .shr b (a :: rest) = .ok (Int.fdiv a (2 ^ b.toNat) :: rest))
    ∧ (∀ (op : ShiftOp) (b a : Int) (rest : List Int),
        -256 ≤ b → b ≤ 256 → b ≠ 0 →
        MaxBigIntegerSizeBits < intBitLen a →
        execSHIFT op b (a :: rest) = .error ("big integer is too big"))
    ∧ (∀ (b a : Int) (rest : List Int), 0 < b → b ≤ 256 →
        intBitLen a ≤ MaxBigIntegerSizeBits →
        MaxBigIntegerSizeBits < intBitLen (a * 2 ^ b.toNat) →
        execSHIFT .shl b (a :: rest) = .error ("big integer is too big"))
    ∧ (∀ (b a : Int) (rest : List Int), -256 ≤ b → b < 0 →
        intBitLen a ≤ MaxBigIntegerSizeBits →
        execSHIFT .shr b (a :: rest) = .ok ((if 0 ≤ a then 0 else -1) :: rest))
    ∧ (∀ (b a : Int) (rest : List Int), -256 ≤ b → b < 0 →
        intBitLen a ≤ MaxBigIntegerSizeBits → a ≠ 0 →
        execSHIFT .shl b (a :: rest) = .error ("big integer is too big"))
    ∧ (∀ (b : Int) (rest : List Int), -256 ≤ b → b < 0 →
        execSHIFT .shl b ((0 : Int) :: rest) = .ok (0 :: rest)) := by
  have hmin : minSHLArg = -256 := by decide
  have hmax : maxSHLArg = 256 := by decide
  refine ⟨?_, ?_, ?_, ?_, ?_, ?_, ?_, ?_, ?_⟩
  · intro op st
    unfold execSHIFT
    rw [if_pos rfl]
  · intro op b st _ _ hb
    unfold execSHIFT
    rw [if_neg (by omega), if_pos (by rw [hmin, hmax]; omega)]
  · intro b a rest h1 h2 ha hr
    unfold execSHIFT
    rw [if_neg (by omega), if_neg (by rw [hmin, hmax]; omega)]
    simp only [if_neg (by omega : ¬ MaxBigIntegerSizeBits < intBitLen a),
      goUint64_pos_small b h1 h2]
    rw [if_neg (by omega)]
  · intro b a rest h1 h2 ha hr
    unfold execSHIFT
    rw [if_neg (by omega), if_neg (by rw [hmin, hmax]; omega)]
    simp only [if_neg (by omega : ¬ MaxBigIntegerSizeBits < intBitLen a),
      goUint64_pos_small b h1 h2]
    rw [if_neg (by omega)]
  · intro op b a rest h1 h2 h3 ha
    unfold execSHIFT
    rw [if_neg (by omega), if_neg (by rw [hmin, hmax]; omega)]
    simp only [if_pos ha]
  · intro b a rest h1 h2 ha hr
    unfold execSHIFT
    rw [if_neg (by omega), if_neg (by rw [hmin, hmax]; omega)]
    simp only [if_neg (by omega : ¬ MaxBigIntegerSizeBits < intBitLen a),
      goUint64_pos_small b h1 h2]
    rw [if_pos hr]
  · intro b a rest h1 h2 ha
    exact execSHIFT_shr_negcount b a rest h1 h2 ha
  · intro b a rest h1 h2 ha ha0
    exact execSHIFT_shl_negcount b a rest h1 h2 ha ha0
  · intro b rest h1 h2
    exact execSHIFT_shl_negcount_zero b rest h1 h2

/-- Witness for C8 (amended): concrete shifts of 5 by 0, 300, 3 and −2, a
shift of −5 by −2, an over-long operand, and a result overflowing 256
bits. -/
theorem shift_semantics_amended_witness :
    execSHIFT .shl 0 [5] = .ok [5] ∧
    execSHIFT .shr 300 [5] = .error ("operand out of range") ∧
    execSHIFT .shl 3 [5] = .ok [40] ∧
    execSHIFT .shr 3 [40] = .ok [5] ∧
    execSHIFT .shr 1 [2 ^ 300] = .error ("big integer is too big") ∧
    execSHIFT .shl 1 [2 ^ 255] = .error ("big integer is too big") ∧
    execSHIFT .shr (-2) [5] = .ok [0] ∧
    execSHIFT .shr (-2) [-5] = .ok [-1] ∧
    execSHIFT .shl (-2) [7] = .error ("big integer is too big") ∧
    execSHIFT .shl (-2) [0] = .ok [0] := by
  refine ⟨shift_semantics_amended.1 .shl [5], ?_, ?_, ?_, ?_, ?_, ?_, ?_, ?_, ?_⟩
  · exact shift_semantics_amended.2.1 .shr 300 [5] (by decide) (by decide) (by decide)
  · have h := shift_semantics_amended.2.2.1 3 5 []
      (by decide) (by decide) (by decide) (by decide)
    have e : (5 : Int) * 2 ^ (3 : Int).toNat = 40 := by decide
    rw [e] at h
    exact h
  · have h := shift_semantics_amended.2.2.2.1 3 40 []
      (by decide) (by decide) (by decide) (by decide)
    have e : Int.fdiv 40 (2 ^ (3 : Int).toNat) = 5 := by decide
    rw [e] at h
    exact h
  · exact shift_semantics_amended.2.2.2.2.1 .shr 1 (2 ^ 300) []
      (by decide) (by decide) (by decide) (by decide)
  · exact shift_semantics_amended.2.2.2.2.2.1 1 (2 ^ 255) []
      (by decide) (by decide) (by decide) (by decide)
  · have h := shift_semantics_amended.2.2.2.2.2.2.1 (-2) 5 []
      (by decide) (by decide) (by decide)
    have e : (if (0 : Int) ≤ 5 then (0 : Int) else -1) = 0 := by decide
    rw [e] at h
    exact h
  · have h := shift_semantics_amended.2.2.2.2.2.2.1 (-2) (-5) []
      (by decide) (by decide) (by decide)
    have e : (if (0 : Int) ≤ -5 then (0 : Int) else -1) = -1 := by decide
    rw [e] at h
    exact h
  · exact shift_semantics_amended.2.2.2.2.2.2.2.1 (-2) 7 []
      (by decide) (by decide) (by decide) (by decide)
  · exact shift_semantics_amended.2.2.2.2.2.2.2.2 (-2) []
      (by decide) (by decide)

/-- CHECKMULTISIG matching loop from `VM.execute` (vm.go). `decodeOk` models
whether `keys.PublicKey.DecodeBytes` succeeds on a key, `verify` models
`pkey.Verify(sig, checkhash)` for the fixed checked hash. The list argument
is the keys not yet tried (`j` counts the keys already tried) and `i` is the
current signature index. The key index advances on every iteration; the
signature index advances only after a successful verification; `sigok`
becomes false as soon as more signatures are left than keys. -/
def msigLoop (decodeOk : List Nat → Bool) (verify : List Nat → List Nat → Bool)
    (sigs : List (List Nat)) : List (List Nat) → Nat → Except String Bool
  | [], _ => .ok true
  | pkey :: restKeys, i =>
    if h : i < sigs.length then
      if decodeOk pkey = false then .error ("invalid key")
      else
        let i' : Nat := if verify pkey (sigs.get ⟨i, h⟩) then i + 1 else i
        if restKeys.length < sigs.length - i' then .ok false
        else msigLoop decodeOk verify sigs restKeys i'
    else .ok true

/-- CHECKMULTISIG handler from `VM.execute` (vm.go), with the two popped
lists of key bytes and signature bytes as arguments. More signatures than
keys is a panic (fault); an unset checked hash is a panic; otherwise the
matching loop result is pushed. -/
def execCHECKMULTISIG (decodeOk : List Nat → Bool)
    (verify : List Nat → List Nat → Bool) (checkhashSet : Bool)
    (pkeys sigs : List (List Nat)) : Except String Bool :=
  if pkeys.length < sigs.length then .error ("more signatures than there are keys")
  else if checkhashSet = false then .error ("VM is not set up for signature checks")
  else msigLoop decodeOk verify sigs pkeys 0

/-- C1: CHECKMULTISIG performs ordered matching: with keys `[k1, k2]` and
valid signatures in key order `[s1, s2]` it pushes true, with the same keys
and reversed signatures `[s2, s1]` it pushes false, and more signatures than
keys is a failure. -/
theorem checkmultisig_ordered_matching :
    (∀ (decodeOk : List Nat → Bool) (verify : List Nat → List Nat → Bool)
        (k1 k2 s1 s2 : List Nat),
      decodeOk k1 = true → decodeOk k2 = true →
      verify k1 s1 = true → verify k2 s2 = true → verify k1 s2 = false →
      execCHECKMULTISIG decodeOk verify true [k1, k2] [s1, s2] = .ok true ∧
      execCHECKMULTISIG decodeOk verify true [k1, k2] [s2, s1] = .ok false)
    ∧ (∀ (decodeOk : List Nat → Bool) (verify : List Nat → List Nat → Bool)
        (checkhashSet : Bool) (pkeys sigs : List (List Nat)),
      pkeys.length < sigs.length →
      execCHECKMULTISIG decodeOk verify checkhashSet pkeys sigs =
        .error ("more signatures than there are keys")) := by
  constructor
  · intro decodeOk verify k1 k2 s1 s2 hd1 hd2 hv1 hv2 hv12
    constructor
    · simp [execCHECKMULTISIG, msigLoop, hd1, hd2, hv1, hv2]
    · simp [execCHECKMULTISIG, msigLoop, hd1, hd2, hv12]
  · intro decodeOk verify checkhashSet pkeys sigs h
    unfold execCHECKMULTISIG
    rw [if_pos h]

/-- Witness for C1 with concrete keys `[1]`, `[2]`, signatures `[1]`, `[2]`
and `verify` matching a key and a signature exactly when they are equal. -/
theorem checkmultisig_ordered_matching_witness :
    execCHECKMULTISIG (fun _ => true) (fun k s => k == s) true [[1], [2]] [[1], [2]] = .ok true ∧
    execCHECKMULTISIG (fun _ => true) (fun k s => k == s) true [[1], [2]] [[2], [1]] = .ok false ∧
    execCHECKMULTISIG (fun _ => true) (fun k s => k == s) true [[1]] [[1], [2]] =
      .error ("more signatures than there are keys") := by
  have h := checkmultisig_ordered_matching.1 (fun _ => true) (fun k s => k == s)
    [1] [2] [1] [2] (by decide) (by decide) (by decide) (by decide) (by decide)
  exact ⟨h.1, h.2,
    checkmultisig_ordered_matching.2 (fun _ => true) (fun k s => k == s) true
      [[1]] [[1], [2]] (by decide)⟩

/-- Opcode subset for the execution-loop model: PUSH1, DROP, NOP and RET. -/
inductive MiniInstr where
  | push1
  | dropOp
  | nop
  | ret
  deriving DecidableEq

/-- VM state flags used by this opcode subset (vm.go `State`): `noneSt` is
ready to step, `haltSt` clean completion, `faultSt` runtime error. -/
inductive MiniState where
  | noneSt
  | haltSt
  | faultSt
  deriving DecidableEq

/-- Execution state of the VM on the modelled opcode subset: the loaded
program with its instruction pointer, the evaluation and alt stacks (whose
item count is what `v.size` tracks, since vm.go wires `size` only into the
stacks created by `newItemStack`), and the number of contexts on the
invocation stack. -/
structure MiniVM where
  prog : List MiniInstr
  ip : Nat
  estack : List Int
  astack : List Int
  istackLen : Nat
  state : MiniState
  deriving DecidableEq

/-- VM.Load / VM.LoadScript: clear the stacks, push one context for the
program, state becomes none. -/
def loadVM (prog : List MiniInstr) : MiniVM :=
  { prog := prog, ip := 0, estack := [], astack := [], istackLen := 1, state := .noneSt }

/-- Modelled from the spec: `Context.Next` (context.go is not in src) fetches
the opcode at the instruction pointer and returns RET once the pointer is
past the end of the program. -/
def fetchInstr (m : MiniVM) : MiniInstr :=
  match m.prog.get? m.ip with
  | some i => i
  | none => .ret

/-- Body of `VM.execute` (vm.go) on the modelled subset, without the deferred
size check. PUSH1 pushes the integer 1; DROP panics on an empty stack
(fault) and pops otherwise; RET pops the only context, halting the VM. -/
def execMini (m : MiniVM) (i : MiniInstr) : MiniVM :=
  match i with
  | .push1 => { m with estack := 1 :: m.estack, ip := m.ip + 1 }
  | .dropOp =>
    match m.estack with
    | [] => { m with state := .faultSt }
    | _ :: rest => { m with estack := rest, ip := m.ip + 1 }
  | .nop => { m with ip := m.ip + 1 }
  | .ret => { m with istackLen := m.istackLen - 1, state := .haltSt, ip := m.ip + 1 }

/-- The item count tracked by `v.size`: the number of items on the
evaluation and alt stacks (each item of this subset counts one). -/
def vmSize (m : MiniVM) : Nat := m.estack.length + m.astack.length

/-- The deferred check at the top of `VM.execute` (vm.go): when the
instruction did not panic and `v.size > MaxStackSize`, the VM faults. -/
def checkSizeAfter (m : MiniVM) : MiniVM :=
  if m.state = .faultSt then m
  else if MaxStackSize < vmSize m then { m with state := .faultSt }
  else m

/-- One iteration of the VM.Run loop: execute the next instruction when the
state is none, otherwise stop (halt and fault states are terminal). -/
def stepVM (m : MiniVM) : MiniVM :=
  if m.state = .noneSt then checkSizeAfter (execMini m (fetchInstr m)) else m

/-- Iterated stepping (VM.Run for a bounded number of instructions). -/
def stepN : Nat → MiniVM → MiniVM
  | 0, m => m
  | n + 1, m => stepN n (stepVM m)

/-- VM.HasFailed (vm.go). -/
def hasFailed (m : MiniVM) : Bool := m.state = .faultSt

/-- The machine state reached after `k` PUSH1 instructions of an
`n`-instruction PUSH1 program (proof abbreviation). -/
def pushedVM (n k : Nat) : MiniVM :=
  { prog := List.replicate n .push1, ip := k, estack := List.replicate k 1,
    astack := [], istackLen := 1, state := .noneSt }

theorem stepN_succ_right (n : Nat) (m : MiniVM) :
    stepN (n + 1) m = stepVM (stepN n m) := by
  induction n generalizing m with
  | zero => rfl
  | succ n ih =>
    show stepN (n + 1) (stepVM m) = _
    rw [ih (stepVM m)]
    rfl

theorem vmSize_state_irrelevant (m : MiniVM) (s : MiniState) :
    vmSize { m with state := s } = vmSize m := rfl

theorem stepVM_inv (m : MiniVM)
    (hm : m.state ≠ .faultSt → vmSize m ≤ MaxStackSize) :
    (stepVM m).state ≠ .faultSt → vmSize (stepVM m) ≤ MaxStackSize := by
  unfold stepVM
  by_cases h : m.state = .noneSt
  · rw [if_pos h]
    intro hf
    set m' := execMini m (fetchInstr m) with hm'
    unfold checkSizeAfter at hf ⊢
    by_cases h1 : m'.state = .faultSt
    · rw [if_pos h1] at hf
      exact absurd h1 hf
    · rw [if_neg h1] at hf ⊢
      by_cases h2 : MaxStackSize < vmSize m'
      · rw [if_pos h2] at hf
        simp at hf
      · rw [if_neg h2]
        omega
  · rw [if_neg h]
    exact hm

theorem checkSizeAfter_fault (m : MiniVM) (h1 : ¬ m.state = .faultSt)
    (h2 : MaxStackSize < vmSize m) :
    checkSizeAfter m = { m with state := .faultSt } := by
  unfold checkSizeAfter
  rw [if_neg h1, if_pos h2]

theorem stepN_inv (n : Nat) (m : MiniVM)
    (hm : m.state ≠ .faultSt → vmSize m ≤ MaxStackSize) :
    (stepN n m).state ≠ .faultSt → vmSize (stepN n m) ≤ MaxStackSize := by
  induction n generalizing m with
  | zero => exact hm
  | succ n ih => exact ih (stepVM m) (stepVM_inv m hm)

theorem stepVM_push1 (m : MiniVM) (hstate : m.state = .noneSt)
    (hfetch : m.prog.get? m.ip = some .push1)
    (hsize : m.estack.length + m.astack.length + 1 ≤ MaxStackSize) :
    stepVM m = { m with estack := 1 :: m.estack, ip := m.ip + 1 } := by
  unfold stepVM fetchInstr
  rw [if_pos hstate, hfetch]
  show checkSizeAfter { m with estack := 1 :: m.estack, ip := m.ip + 1 } = _
  unfold checkSizeAfter
  rw [if_neg (by rw [hstate]; exact (fun h => nomatch h))]
  rw [if_neg (by simp only [vmSize, List.length_cons]; omega)]

theorem stepVM_push1_fault (m : MiniVM) (hstate : m.state = .noneSt)
    (hfetch : m.prog.get? m.ip = some .push1)
    (hsize : MaxStackSize < m.estack.length + m.astack.length + 1) :
    stepVM m = { m with estack := 1 :: m.estack, ip := m.ip + 1, state := .faultSt } := by
  unfold stepVM fetchInstr
  rw [if_pos hstate, hfetch]
  show checkSizeAfter { m with estack := 1 :: m.estack, ip := m.ip + 1 } = _
  unfold checkSizeAfter
  rw [if_neg (by rw [hstate]; exact (fun h => nomatch h))]
  rw [if_pos (by simp only [vmSize, List.length_cons]; omega)]

theorem stepN_push1_reaches (n : Nat) :
    ∀ k : Nat, k ≤ n → k ≤ MaxStackSize →
    stepN k (loadVM (List.replicate n .push1)) = pushedVM n k := by
  intro k
  induction k with
  | zero => intro _ _; rfl
  | succ k ih =>
    intro hk hsize
    have hfetch : (pushedVM n k).prog.get? (pushedVM n k).ip = some .push1 := by
      simp only [pushedVM]
      rw [List.get?_eq_getElem?, List.getElem?_replicate]
      simp only [if_pos (by omega : k < n)]
    have hsz : (pushedVM n k).estack.length + (pushedVM n k).astack.length + 1
        ≤ MaxStackSize := by
      simp only [pushedVM, List.length_replicate, List.length_nil]
      omega
    rw [stepN_succ_right, ih (by omega) (by omega),
      stepVM_push1 (pushedVM n k) rfl hfetch hsz]
    simp only [pushedVM, List.replicate_succ]

/-- C2 counterexample: after 2048 PUSH1 instructions the VM has not faulted,
yet the total item count across the evaluation, alt and invocation stacks is
2049 — the invocation stack's context is not counted by `v.size`, so the
2048 bound does not cover it. -/
theorem stack_size_claim_counterexample :
    (stepN 2048 (loadVM (List.replicate 2048 .push1))).state ≠ .faultSt ∧
    (stepN 2048 (loadVM (List.replicate 2048 .push1))).estack.length +
      (stepN 2048 (loadVM (List.replicate 2048 .push1))).astack.length +
      (stepN 2048 (loadVM (List.replicate 2048 .push1))).istackLen = 2049 := by
  rw [stepN_push1_reaches 2048 2048 le_rfl (by decide)]
  refine ⟨(fun h => nomatch h), ?_⟩
  simp only [pushedVM, List.length_replicate, List.length_nil]

/-- C2 (amended): in every reachable non-faulted state the number of items
on the evaluation and alt stacks is at most MaxStackSize = 2048 (the
deferred check in `VM.execute` faults any instruction leaving more), and a
program of 2049 consecutive PUSH1 opcodes faults with HasFailed true. -/
theorem stack_size_bound_amended :
    (∀ (prog : List MiniInstr) (n : Nat),
      (stepN n (loadVM prog)).state ≠ .faultSt →
      vmSize (stepN n (loadVM prog)) ≤ MaxStackSize)
    ∧ (stepN 2049 (loadVM (List.replicate 2049 .push1))).state = .faultSt
    ∧ hasFailed (stepN 2049 (loadVM (List.replicate 2049 .push1))) = true := by
  have hfault : (stepN 2049 (loadVM (List.replicate 2049 .push1))).state = .faultSt := by
    have h2048 := stepN_push1_reaches 2049 2048 (by omega) (by decide)
    have he : (2049 : Nat) = 2048 + 1 := rfl
    have hfetch : (pushedVM 2049 2048).prog.get? (pushedVM 2049 2048).ip
        = some .push1 := by
      simp only [pushedVM]
      rw [List.get?_eq_getElem?, List.getElem?_replicate]
      simp only [if_pos (by omega : 2048 < 2049)]
    have hsz : MaxStackSize <
        (pushedVM 2049 2048).estack.length + (pushedVM 2049 2048).astack.length + 1 := by
      simp only [pushedVM, List.length_replicate, List.length_nil, MaxStackSize]
      omega
    rw [he, stepN_succ_right, h2048,
      stepVM_push1_fault (pushedVM 2049 2048) rfl hfetch hsz]
  refine ⟨?_, hfault, ?_⟩
  · intro prog n
    exact stepN_inv n (loadVM prog) (fun _ => Nat.zero_le _)
  · unfold hasFailed
    rw [hfault]
    rfl

/-- Witness for C2 (amended) on the empty program after zero steps. -/
theorem stack_size_bound_amended_witness :
    vmSize (stepN 0 (loadVM [])) ≤ MaxStackSize :=
  stack_size_bound_amended.1 [] 0 (by decide)

/-- Tagged stack-item variants of the VM (spec section 4.1, stack items of
vm.go). Array, struct and map items are *references*: the Go code stores
pointers to `ArrayItem` / `StructItem` / `MapItem` objects, modelled here as
indices into an explicit heap, so object identity is index equality. -/
inductive StackItem where
  | boolItem : Bool → StackItem
  | intItem : Int → StackItem
  | bytesItem : List Nat → StackItem
  | arrayItem : Nat → StackItem
  | structItem : Nat → StackItem
  | mapItem : Nat → StackItem
  | interopItem : Nat → StackItem
  deriving DecidableEq

/-- Contents of one heap-allocated collection object: the `[]StackItem`
slice behind an ArrayItem or StructItem, or the entry list behind a
MapItem. -/
inductive HeapObj where
  | arrObj : List StackItem → HeapObj
  | mapObj : List (StackItem × StackItem) → HeapObj
  deriving DecidableEq

/-- The object heap; a reference is an index into this list and allocation
appends at the end. -/
abbrev Heap := List HeapObj

/-- The slice contents behind an array/struct reference. -/
def heapArr (h : Heap) (r : Nat) : List StackItem :=
  match h.get? r with
  | some (.arrObj items) => items
  | _ => []

/-- The entry list behind a map reference. -/
def heapMap (h : Heap) (r : Nat) : List (StackItem × StackItem) :=
  match h.get? r with
  | some (.mapObj entries) => entries
  | _ => []

/-- Lookup of a key in a map entry list (Go map indexing by comparable
key). -/
def lookupEntry (k : StackItem) (entries : List (StackItem × StackItem)) :
    Option StackItem :=
  match entries.find? (fun e => e.1 == k) with
  | some e => some e.2
  | none => none

/-- Deep structural equality of stack items, following pointers into the
heap, as `reflect.DeepEqual` does on the popped elements; `fuel` bounds the
recursion depth (one level per heap indirection, so `h.length + 1` suffices
on acyclic heaps). Items of different variants are never deep-equal, exactly
as values of different Go dynamic types. -/
def deepEqual (h : Heap) : Nat → StackItem → StackItem → Bool
  | 0, _, _ => false
  | fuel + 1, a, b =>
    match a, b with
    | .arrayItem ra, .arrayItem rb =>
      ra == rb ||
        ((heapArr h ra).length == (heapArr h rb).length &&
          (List.zip (heapArr h ra) (heapArr h rb)).all
            (fun p => deepEqual h fuel p.1 p.2))
    | .structItem ra, .structItem rb =>
      ra == rb ||
        ((heapArr h ra).length == (heapArr h rb).length &&
          (List.zip (heapArr h ra) (heapArr h rb)).all
            (fun p => deepEqual h fuel p.1 p.2))
    | .mapItem ra, .mapItem rb =>
      ra == rb ||
        ((heapMap h ra).length == (heapMap h rb).length &&
          (heapMap h ra).all (fun e =>
            match lookupEntry e.1 (heapMap h rb) with
            | some w => deepEqual h fuel e.2 w
            | none => false))
    | x, y => x == y

/-- EQUAL handler from `VM.execute` (vm.go): two array operands or two map
operands compare by object identity; every other combination falls through
to `reflect.DeepEqual`. -/
def execEQUAL (h : Heap) (a b : StackItem) : Bool :=
  match a, b with
  | .arrayItem ra, .arrayItem rb => ra == rb
  | .mapItem ra, .mapItem rb => ra == rb
  | _, _ => deepEqual h (h.length + 1) a b

/-- Whether both operands are array items (the identity branch of EQUAL). -/
def bothArrays : StackItem → StackItem → Bool
  | .arrayItem _, .arrayItem _ => true
  | _, _ => false

/-- Whether both operands are map items (the identity branch of EQUAL). -/
def bothMaps : StackItem → StackItem → Bool
  | .mapItem _, .mapItem _ => true
  | _, _ => false

/-- C7: EQUAL on two arrays or two maps is true exactly when both operands
are the same underlying object; every other combination is compared by deep
structural value — after DUP both operands are the same array, so the
result is true; two distinct empty arrays give false; two equal big
integers give true. -/
theorem equal_identity_vs_deep :
    (∀ (h : Heap) (ra rb : Nat),
      execEQUAL h (.arrayItem ra) (.arrayItem rb) = true ↔ ra = rb)
    ∧ (∀ (h : Heap) (ra rb : Nat),
      execEQUAL h (.mapItem ra) (.mapItem rb) = true ↔ ra = rb)
    ∧ (∀ (h : Heap) (a b : StackItem),
      bothArrays a b = false → bothMaps a b = false →
      execEQUAL h a b = deepEqual h (h.length + 1) a b)
    ∧ (∀ (h : Heap) (r : Nat), execEQUAL h (.arrayItem r) (.arrayItem r) = true)
    ∧ (execEQUAL [.arrObj [], .arrObj []] (.arrayItem 0) (.arrayItem 1) = false)
    ∧ (∀ (h : Heap) (n : Int), execEQUAL h (.intItem n) (.intItem n) = true) := by
  refine ⟨?_, ?_, ?_, ?_, rfl, ?_⟩
  · intro h ra rb
    simp [execEQUAL]
  · intro h ra rb
    simp [execEQUAL]
  · intro h a b hna hnm
    cases a <;> cases b <;> simp_all [bothArrays, bothMaps, execEQUAL]
  · intro h r
    simp [execEQUAL]
  · intro h n
    simp [execEQUAL, deepEqual]

/-- Witness for C7 at a concrete heap of two distinct arrays and concrete
integers. -/
theorem equal_identity_vs_deep_witness :
    execEQUAL [.arrObj [], .arrObj []] (.arrayItem 0) (.arrayItem 0) = true ∧
    execEQUAL [.arrObj [], .arrObj []] (.intItem 5) (.intItem 5) = true ∧
    execEQUAL [.arrObj [], .arrObj []] (.intItem 5) (.bytesItem [5]) =
      deepEqual [.arrObj [], .arrObj []] 3 (.intItem 5) (.bytesItem [5]) :=
  ⟨equal_identity_vs_deep.2.2.2.1 [.arrObj [], .arrObj []] 0,
   equal_identity_vs_deep.2.2.2.2.2 [.arrObj [], .arrObj []] 5,
   equal_identity_vs_deep.2.2.1 [.arrObj [], .arrObj []] (.intItem 5) (.bytesItem [5])
     (by decide) (by decide)⟩

/-- Little-endian unsigned value of a byte string. -/
def bytesToNatLE : List Nat → Nat
  | [] => 0
  | b :: bs => b % 256 + 256 * bytesToNatLE bs

/-- Modelled from the spec: `Element.BigInt()` on a byte-array item
(stack.go is not in src) interprets the bytes as a little-endian signed
(two's-complement) integer. -/
def bytesToInt (bs : List Nat) : Int :=
  if bs = [] then 0
  else
    let n : Int := (bytesToNatLE bs : Int)
    if 128 ≤ bs.getLastD 0 % 256 then n - 2 ^ (8 * bs.length) else n

/-- Modelled from the spec: `Element.BigInt()` (stack.go is not in src)
converts a boolean, integer or byte-array item to a big integer and panics
on collection and interop items. -/
def itemToInt : StackItem → Except String Int
  | .boolItem b => .ok (if b then 1 else 0)
  | .intItem n => .ok n
  | .bytesItem bs => .ok (bytesToInt bs)
  | _ => .error ("can not be converted to a big integer")

/-- NEWARRAY handler from `VM.execute` (vm.go): a struct operand is copied
into a fresh array object; an array operand is pushed back unchanged (the
same reference); anything else is interpreted as the count `n`, panicking
above MaxArraySize (and on a negative count, where `make` panics), else
allocating `n` boolean-false items. -/
def execNEWARRAY (h : Heap) (item : StackItem) : Except String (StackItem × Heap) :=
  match item with
  | .structItem r => .ok (.arrayItem h.length, h ++ [.arrObj (heapArr h r)])
  | .arrayItem r => .ok (.arrayItem r, h)
  | _ =>
    match itemToInt item with
    | .error e => .error e
    | .ok n =>
      if (MaxArraySize : Int) < n then .error ("too long array")
      else if n < 0 then .error ("makeslice: len out of range")
      else .ok (.arrayItem h.length,
        h ++ [.arrObj (List.replicate n.toNat (.boolItem false))])

/-- NEWSTRUCT handler from `VM.execute` (vm.go), the mirror image of
NEWARRAY: an array operand is copied into a fresh struct object, a struct
operand is pushed back unchanged. -/
def execNEWSTRUCT (h : Heap) (item : StackItem) : Except String (StackItem × Heap) :=
  match item with
  | .arrayItem r => .ok (.structItem h.length, h ++ [.arrObj (heapArr h r)])
  | .structItem r => .ok (.structItem r, h)
  | _ =>
    match itemToInt item with
    | .error e => .error e
    | .ok n =>
      if (MaxArraySize : Int) < n then .error ("too long struct")
      else if n < 0 then .error ("makeslice: len out of range")
      else .ok (.structItem h.length,
        h ++ [.arrObj (List.replicate n.toNat (.boolItem false))])

/-- Whether a stack item is a struct item. -/
def isStructItem : StackItem → Bool
  | .structItem _ => true
  | _ => false

/-- C6 counterexample: NEWARRAY applied to an array operand pushes back the
very same array object (same reference, same kind, heap unchanged), not a
new object of the other kind. -/
theorem newarray_on_array_counterexample :
    execNEWARRAY [.arrObj [.intItem 42]] (.arrayItem 0) =
      .ok (.arrayItem 0, [.arrObj [.intItem 42]]) ∧
    (execNEWARRAY [.arrObj [.intItem 42]] (.arrayItem 0)).toOption.map
      (fun p => isStructItem p.1) = some false := by
  exact ⟨rfl, rfl⟩

/-- C6 (amended): NEWARRAY (NEWSTRUCT) on a non-collection operand
interpreted as integer `n` pushes an array (struct) of `n` boolean-false
items and faults when `n` exceeds 1024; on an operand of the *other*
collection kind it converts by copying the underlying slice into a new
object; on an operand of the *same* kind it pushes the operand back
unchanged. -/
theorem newarray_newstruct_semantics :
    (∀ (h : Heap) (n : Int), 0 ≤ n → n ≤ (MaxArraySize : Int) →
      execNEWARRAY h (.intItem n) =
        .ok (.arrayItem h.length,
          h ++ [.arrObj (List.replicate n.toNat (.boolItem false))]) ∧
      execNEWSTRUCT h (.intItem n) =
        .ok (.structItem h.length,
          h ++ [.arrObj (List.replicate n.toNat (.boolItem false))]))
    ∧ (∀ (h : Heap) (n : Int), (MaxArraySize : Int) < n →
      execNEWARRAY h (.intItem n) = .error ("too long array") ∧
      execNEWSTRUCT h (.intItem n) = .error ("too long struct"))
    ∧ (∀ (h : Heap) (r : Nat),
      execNEWARRAY h (.structItem r) =
        .ok (.arrayItem h.length, h ++ [.arrObj (heapArr h r)]) ∧
      execNEWSTRUCT h (.arrayItem r) =
        .ok (.structItem h.length, h ++ [.arrObj (heapArr h r)]))
    ∧ (∀ (h : Heap) (r : Nat),
      execNEWARRAY h (.arrayItem r) = .ok (.arrayItem r, h) ∧
      execNEWSTRUCT h (.structItem r) = .ok (.structItem r, h)) := by
  refine ⟨?_, ?_, ?_, ?_⟩
  · intro h n h0 h1
    constructor
    · simp only [execNEWARRAY, itemToInt]
      rw [if_neg (by omega), if_neg (by omega)]
    · simp only [execNEWSTRUCT, itemToInt]
      rw [if_neg (by omega), if_neg (by omega)]
  · intro h n h1
    constructor
    · simp only [execNEWARRAY, itemToInt]
      rw [if_pos h1]
    · simp only [execNEWSTRUCT, itemToInt]
      rw [if_pos h1]
  · intro h r
    exact ⟨rfl, rfl⟩
  · intro h r
    exact ⟨rfl, rfl⟩

/-- Witness for C6 (amended) on a one-element heap and the count 1 (the
inputs of TestNEWARRAYInteger and TestNEWARRAYStruct). -/
theorem newarray_newstruct_semantics_witness :
    execNEWARRAY [] (.intItem 1) = .ok (.arrayItem 0, [.arrObj [.boolItem false]]) ∧
    execNEWARRAY [.arrObj [.intItem 42]] (.intItem 1025) = .error ("too long array") ∧
    execNEWSTRUCT [.arrObj [.intItem 42]] (.arrayItem 0) =
      .ok (.structItem 1, [.arrObj [.intItem 42], .arrObj [.intItem 42]]) := by
  refine ⟨?_, ?_, ?_⟩
  · have h := (newarray_newstruct_semantics.1 [] 1 (by decide) (by decide)).1
    exact h.trans (by rfl)
  · exact (newarray_newstruct_semantics.2.1 [.arrObj [.intItem 42]] 1025 (by decide)).1
  · have h := (newarray_newstruct_semantics.2.2.1 [.arrObj [.intItem 42]] 0).2
    exact h.trans (by rfl)

/-- Modelled from the spec: the `RelayReason` result type of `RelayTxn`
(its declaration file is not in src; the six values are listed in the spec
and matched in pkg/rpc/wrappers/tx_raw_output.go). -/
inductive RelayReason where
  | relaySucceed
  | relayAlreadyExists
  | relayOutOfMemory
  | relayUnableToVerify
  | relayInvalid
  | relayPolicyFail
  deriving DecidableEq

/-- A connected peer as `RelayTxn` sees it: the `Relay` flag of the version
payload it sent during the handshake. -/
structure PeerM where
  relay : Bool
  deriving DecidableEq

/-- The environment a single `RelayTxn` call observes: whether the
transaction is a miner transaction, whether the chain already has its hash,
whether `VerifyTx` succeeds, whether the mempool accepts it, and the
connected peers. -/
structure RelayEnv where
  isMiner : Bool
  hasTransaction : Bool
  verifyOk : Bool
  mempoolAdds : Bool
  peers : List PeerM

/-- Server.RelayDirectly (server_config.go): the inv message is written to
the peer only when its version has `Relay = true`. -/
def relayDirectly (p : PeerM) : Bool := p.relay

/-- Server.RelayTxn (server_config.go): the checks in program order, and on
acceptance the list of peers to which the inv message was actually written
(via `RelayDirectly`). -/
def relayTxn (env : RelayEnv) : RelayReason × List PeerM :=
  if env.isMiner then (.relayInvalid, [])
  else if env.hasTransaction then (.relayAlreadyExists, [])
  else if env.verifyOk = false then (.relayInvalid, [])
  else if env.mempoolAdds = false then (.relayOutOfMemory, [])
  else (.relaySucceed, env.peers.filter relayDirectly)

/-- C3 counterexample: a miner transaction whose hash the chain already
contains makes `RelayTxn` return `RelayInvalid`, not `RelayAlreadyExists` —
the miner-type check precedes the duplicate-hash check. -/
theorem relaytxn_claim_counterexample :
    (relayTxn ⟨true, true, true, true, []⟩).1 = .relayInvalid ∧
    (relayTxn ⟨true, true, true, true, []⟩).1 ≠ .relayAlreadyExists := by
  exact ⟨rfl, (fun h => nomatch h)⟩

/-- C3 (amended): RelayTxn returns one of the six RelayReason values; for a
non-miner transaction already in the chain it returns AlreadyExists; when
additionally verification succeeds but the mempool cannot accept it,
OutOfMemory; on acceptance, Succeed — and the inv message is then sent
exactly to the connected peers whose version has relay=true. -/
theorem relaytxn_semantics :
    (∀ env : RelayEnv,
      (relayTxn env).1 = .relaySucceed ∨ (relayTxn env).1 = .relayAlreadyExists ∨
      (relayTxn env).1 = .relayOutOfMemory ∨ (relayTxn env).1 = .relayUnableToVerify ∨
      (relayTxn env).1 = .relayInvalid ∨ (relayTxn env).1 = .relayPolicyFail)
    ∧ (∀ env : RelayEnv, env.isMiner = false → env.hasTransaction = true →
      (relayTxn env).1 = .relayAlreadyExists)
    ∧ (∀ env : RelayEnv, env.isMiner = false → env.hasTransaction = false →
      env.verifyOk = true → env.mempoolAdds = false →
      (relayTxn env).1 = .relayOutOfMemory)
    ∧ (∀ env : RelayEnv, env.isMiner = false → env.hasTransaction = false →
      env.verifyOk = true → env.mempoolAdds = true →
      (relayTxn env).1 = .relaySucceed ∧
      (relayTxn env).2 = env.peers.filter relayDirectly)
    ∧ (∀ (env : RelayEnv) (p : PeerM), p ∈ (relayTxn env).2 → p.relay = true) := by
  refine ⟨?_, ?_, ?_, ?_, ?_⟩
  · intro env
    unfold relayTxn
    by_cases h1 : env.isMiner <;> by_cases h2 : env.hasTransaction <;>
      by_cases h3 : env.verifyOk <;> by_cases h4 : env.mempoolAdds <;>
      simp [h1, h2, h3, h4]
  · intro env h1 h2
    simp [relayTxn, h1, h2]
  · intro env h1 h2 h3 h4
    simp [relayTxn, h1, h2, h3, h4]
  · intro env h1 h2 h3 h4
    simp [relayTxn, h1, h2, h3, h4]
  · intro env p hp
    unfold relayTxn at hp
    by_cases h1 : env.isMiner <;> by_cases h2 : env.hasTransaction <;>
      by_cases h3 : env.verifyOk <;> by_cases h4 : env.mempoolAdds <;>
      simp [h1, h2, h3, h4] at hp
    exact hp.2

/-- Witness for C3 (amended) at a concrete environment with one relaying
and one non-relaying peer. -/
theorem relaytxn_semantics_witness :
    (relayTxn ⟨false, true, true, true, []⟩).1 = .relayAlreadyExists ∧
    (relayTxn ⟨false, false, true, false, []⟩).1 = .relayOutOfMemory ∧
    (relayTxn ⟨false, false, true, true, [⟨true⟩, ⟨false⟩]⟩).2 = [⟨true⟩] := by
  refine ⟨?_, ?_, ?_⟩
  · exact relaytxn_semantics.2.1 _ rfl rfl
  · exact relaytxn_semantics.2.2.1 _ rfl rfl rfl rfl
  · have h := (relaytxn_semantics.2.2.2.1
      ⟨false, false, true, true, [⟨true⟩, ⟨false⟩]⟩ rfl rfl rfl rfl).2
    exact h.trans (by rfl)

/-- The message commands relevant to the inventory exchange. -/
inductive MsgCommand where
  | cmdInv
  | cmdGetData
  deriving DecidableEq

/-- An inv/getdata message: command, inventory type byte, announced hashes
(32-byte content hashes, abstracted as naturals). -/
structure InvMessage where
  cmd : MsgCommand
  invType : Nat
  hashes : List Nat
  deriving DecidableEq

/-- The chain/mempool possession state the server could consult: whether a
hash is already stored. -/
structure ServerState where
  hasItem : Nat → Bool

/-- Server.handleInvCmd (server_config.go): builds a new inventory payload
from the *received* type and hashes and writes it back as a getdata
message. The server state is available but not consulted. -/
def handleInvCmd (s : ServerState) (inv : InvMessage) : InvMessage :=
  { cmd := .cmdGetData, invType := inv.invType, hashes := inv.hashes }

/-- The hash filter the claim describes: only the announced hashes the
server does not already have. -/
def hashesNotHad (s : ServerState) (inv : InvMessage) : List Nat :=
  inv.hashes.filter (fun h => s.hasItem h = false)

/-- C4 counterexample: a server that already has hash 7 still answers an
inv announcing `[7]` with a getdata requesting `[7]`, although the filtered
request of the claim would be empty. -/
theorem handleinv_claim_counterexample :
    (handleInvCmd { hasItem := fun _ => true }
      { cmd := .cmdInv, invType := 1, hashes := [7] }).hashes = [7] ∧
    hashesNotHad { hasItem := fun _ => true }
      { cmd := .cmdInv, invType := 1, hashes := [7] } = [] ∧
    ({ hasItem := fun _ => true } : ServerState).hasItem 7 = true := by
  exact ⟨rfl, rfl, rfl⟩

/-- C4 (amended): on receiving an inv message the server replies to that
peer with a getdata message of the same inventory type requesting exactly
the announced hashes, regardless of which of them it already has (no
possession filtering). -/
theorem handleinv_echoes_all_hashes :
    ∀ (s : ServerState) (inv : InvMessage),
      (handleInvCmd s inv).cmd = .cmdGetData ∧
      (handleInvCmd s inv).invType = inv.invType ∧
      (handleInvCmd s inv).hashes = inv.hashes := by
  intro s inv
  exact ⟨rfl, rfl, rfl⟩

/-- Modelled from the spec: the `io.BinWriter` little-endian encoding of a
`w`-byte unsigned integer (pkg/io is not in src; spec section 6,
little-endian primitives). -/
def putUIntLE : Nat → Nat → List Nat
  | 0, _ => []
  | w + 1, n => n % 256 :: putUIntLE w (n / 256)

/-- Modelled from the spec: the `io.BinReader` little-endian decoding of a
`w`-byte unsigned integer, returning the value and the remaining bytes, or
none when the input is too short. -/
def getUIntLE : Nat → List Nat → Option (Nat × List Nat)
  | 0, bs => some (0, bs)
  | _ + 1, [] => none
  | w + 1, b :: bs =>
    match getUIntLE w bs with
    | some (v, rest) => some (b + 256 * v, rest)
    | none => none

/-- Modelled from the spec: `io.BinWriter.WriteVarUint` size prefix
(spec section 6): one byte below 0xFD, otherwise a 0xFD/0xFE/0xFF marker
followed by a 2-, 4- or 8-byte little-endian value. -/
def putVarUint (n : Nat) : List Nat :=
  if n < 0xFD then [n]
  else if n ≤ 0xFFFF then 0xFD :: putUIntLE 2 n
  else if n ≤ 0xFFFFFFFF then 0xFE :: putUIntLE 4 n
  else 0xFF :: putUIntLE 8 n

/-- Modelled from the spec: `io.BinReader.ReadVarUint`. -/
def getVarUint : List Nat → Option (Nat × List Nat)
  | [] => none
  | b :: bs =>
    if b = 0xFD then getUIntLE 2 bs
    else if b = 0xFE then getUIntLE 4 bs
    else if b = 0xFF then getUIntLE 8 bs
    else some (b, bs)

/-- Reading exactly `n` raw bytes, failing when fewer are available. -/
def getBytesN (n : Nat) (bs : List Nat) : Option (List Nat × List Nat) :=
  if n ≤ bs.length then some (bs.take n, bs.drop n) else none

/-- Modelled from the spec: `io.BinWriter.WriteBytes` / `WriteString`
(var-uint length prefix followed by the raw bytes). -/
def putBytes (bs : List Nat) : List Nat := putVarUint bs.length ++ bs

/-- Modelled from the spec: `io.BinReader.ReadBytes` / `ReadString`. -/
def getBytes (bs : List Nat) : Option (List Nat × List Nat) :=
  Option.bind (getVarUint bs) (fun pn => getBytesN pn.1 pn.2)

/-- Modelled from the spec: the one-byte encoding of a boolean used by
`binary.Write` (`WriteLE` of a bool). -/
def putBool (b : Bool) : List Nat := [if b then 1 else 0]

/-- Modelled from the spec: the one-byte decoding of a boolean used by
`binary.Read` (any non-zero byte is true). -/
def getBool : List Nat → Option (Bool × List Nat)
  | [] => none
  | b :: bs => some (decide (b ≠ 0), bs)

theorem getUIntLE_putUIntLE (w : Nat) :
    ∀ (n : Nat) (rest : List Nat), n < 2 ^ (8 * w) →
    getUIntLE w (putUIntLE w n ++ rest) = some (n, rest) := by
  induction w with
  | zero =>
    intro n rest hn
    have h0 : n = 0 := by
      have h1 : (2 : Nat) ^ (8 * 0) = 1 := by norm_num
      omega
    subst h0
    rfl
  | succ w ih =>
    intro n rest hn
    have hdiv : n / 256 < 2 ^ (8 * w) := by
      have he : (2 : Nat) ^ (8 * (w + 1)) = 2 ^ (8 * w) * 256 := by
        rw [show 8 * (w + 1) = 8 * w + 8 by ring, pow_add]
        norm_num
      rw [he] at hn
      omega
    show getUIntLE (w + 1) (n % 256 :: (putUIntLE w (n / 256) ++ rest)) = _
    unfold getUIntLE
    rw [ih (n / 256) rest hdiv]
    show some (n % 256 + 256 * (n / 256), rest) = some (n, rest)
    have hm : n % 256 + 256 * (n / 256) = n := by omega
    rw [hm]

theorem getVarUint_putVarUint (n : Nat) (rest : List Nat) (hn : n < 2 ^ 64) :
    getVarUint (putVarUint n ++ rest) = some (n, rest) := by
  unfold putVarUint
  by_cases h1 : n < 0xFD
  · rw [if_pos h1]
    show getVarUint (n :: rest) = _
    simp only [getVarUint]
    rw [if_neg (by omega : ¬ n = 0xFD), if_neg (by omega : ¬ n = 0xFE),
      if_neg (by omega : ¬ n = 0xFF)]
  · rw [if_neg h1]
    by_cases h2 : n ≤ 0xFFFF
    · rw [if_pos h2]
      show getVarUint (0xFD :: (putUIntLE 2 n ++ rest)) = _
      simp only [getVarUint]
      rw [if_pos trivial]
      exact getUIntLE_putUIntLE 2 n rest (by norm_num; omega)
    · rw [if_neg h2]
      by_cases h3 : n ≤ 0xFFFFFFFF
      · rw [if_pos h3]
        show getVarUint (0xFE :: (putUIntLE 4 n ++ rest)) = _
        simp only [getVarUint]
        rw [if_pos trivial]
        exact getUIntLE_putUIntLE 4 n rest (by norm_num; omega)
      · rw [if_neg h3]
        show getVarUint (0xFF :: (putUIntLE 8 n ++ rest)) = _
        simp only [getVarUint]
        rw [if_pos trivial]
        exact getUIntLE_putUIntLE 8 n rest hn

theorem getBytesN_exact (n : Nat) (b rest : List Nat) (hb : b.length = n) :
    getBytesN n (b ++ rest) = some (b, rest) := by
  unfold getBytesN
  subst hb
  rw [if_pos (by simp), List.take_left, List.drop_left]

theorem getBytes_putBytes (b rest : List Nat) (h : b.length < 2 ^ 64) :
    getBytes (putBytes b ++ rest) = some (b, rest) := by
  unfold getBytes putBytes
  rw [List.append_assoc, getVarUint_putVarUint b.length _ h]
  simp only [Option.some_bind]
  exact getBytesN_exact b.length b rest rfl

theorem getBool_putBool (b : Bool) (rest : List Nat) :
    getBool (putBool b ++ rest) = some (b, rest) := by
  cases b <;> rfl

/-- The `version` handshake payload (pkg/network/payload/version.go). -/
structure VersionPayload where
  version : Nat
  services : Nat
  timestamp : Nat
  port : Nat
  nonce : Nat
  userAgent : List Nat
  startHeight : Nat
  relay : Bool
  deriving DecidableEq

/-- Well-formedness: each field fits its Go integer type (`uint32`,
`uint64`, `uint16`), and the user agent length fits the var-uint range. -/
def VersionPayload.WF (p : VersionPayload) : Prop :=
  p.version < 2 ^ (8 * 4) ∧ p.services < 2 ^ (8 * 8) ∧ p.timestamp < 2 ^ (8 * 4) ∧
  p.port < 2 ^ (8 * 2) ∧ p.nonce < 2 ^ (8 * 4) ∧ p.userAgent.length < 2 ^ 64 ∧
  p.startHeight < 2 ^ (8 * 4)

instance (p : VersionPayload) : Decidable p.WF := by
  unfold VersionPayload.WF
  infer_instance

/-- Version.EncodeBinary (version.go): fixed-width little-endian fields,
var-bytes user agent, one-byte relay flag. -/
def VersionPayload.encodeBinary (p : VersionPayload) : List Nat :=
  putUIntLE 4 p.version ++ putUIntLE 8 p.services ++ putUIntLE 4 p.timestamp ++
  putUIntLE 2 p.port ++ putUIntLE 4 p.nonce ++ putBytes p.userAgent ++
  putUIntLE 4 p.startHeight ++ putBool p.relay

/-- Version.DecodeBinary (version.go), reading the fields in encoding
order. -/
def VersionPayload.decodeBinary (bs : List Nat) : Option (VersionPayload × List Nat) :=
  Option.bind (getUIntLE 4 bs) (fun p1 =>
  Option.bind (getUIntLE 8 p1.2) (fun p2 =>
  Option.bind (getUIntLE 4 p2.2) (fun p3 =>
  Option.bind (getUIntLE 2 p3.2) (fun p4 =>
  Option.bind (getUIntLE 4 p4.2) (fun p5 =>
  Option.bind (getBytes p5.2) (fun p6 =>
  Option.bind (getUIntLE 4 p6.2) (fun p7 =>
  Option.bind (getBool p7.2) (fun p8 =>
  some (⟨p1.1, p2.1, p3.1, p4.1, p5.1, p6.1, p7.1, p8.1⟩, p8.2)))))))))

theorem versionPayload_roundtrip (p : VersionPayload) (rest : List Nat) (h : p.WF) :
    VersionPayload.decodeBinary (VersionPayload.encodeBinary p ++ rest) =
      some (p, rest) := by
  obtain ⟨h1, h2, h3, h4, h5, h6, h7⟩ := h
  unfold VersionPayload.encodeBinary VersionPayload.decodeBinary
  simp only [List.append_assoc]
  rw [getUIntLE_putUIntLE 4 p.version _ h1]
  simp only [Option.some_bind]
  rw [getUIntLE_putUIntLE 8 p.services _ h2]
  simp only [Option.some_bind]
  rw [getUIntLE_putUIntLE 4 p.timestamp _ h3]
  simp only [Option.some_bind]
  rw [getUIntLE_putUIntLE 2 p.port _ h4]
  simp only [Option.some_bind]
  rw [getUIntLE_putUIntLE 4 p.nonce _ h5]
  simp only [Option.some_bind]
  rw [getBytes_putBytes p.userAgent _ h6]
  simp only [Option.some_bind]
  rw [getUIntLE_putUIntLE 4 p.startHeight _ h7]
  simp only [Option.some_bind]
  rw [getBool_putBool p.relay rest]
  simp only [Option.some_bind]

/-- Reading `n` consecutive 32-byte hashes (`br.ReadLE` into a
`[]util.Uint256` slice of length `n`). -/
def getHashes : Nat → List Nat → Option (List (List Nat) × List Nat)
  | 0, bs => some ([], bs)
  | n + 1, bs =>
    Option.bind (getBytesN 32 bs) (fun ph =>
    Option.bind (getHashes n ph.2) (fun pt =>
    some (ph.1 :: pt.1, pt.2)))

theorem getHashes_flatten (hashes : List (List Nat)) (rest : List Nat)
    (hlen : ∀ h ∈ hashes, h.length = 32) :
    getHashes hashes.length (hashes.flatten ++ rest) = some (hashes, rest) := by
  induction hashes with
  | nil => rfl
  | cons h t ih =>
    show getHashes (t.length + 1) ((h ++ t.flatten) ++ rest) = _
    unfold getHashes
    rw [List.append_assoc, getBytesN_exact 32 h _ (hlen h (List.mem_cons_self h t))]
    simp only [Option.some_bind]
    rw [ih (fun x hx => hlen x (List.mem_cons_of_mem h hx))]
    simp only [Option.some_bind]

/-- The `getblocks`/`getheaders` payload
(pkg/network/payload/getblocks.go). -/
structure GetBlocks where
  hashStart : List (List Nat)
  hashStop : List Nat
  deriving DecidableEq

/-- Well-formedness: 32-byte hashes and a var-uint-representable count. -/
def GetBlocks.WF (g : GetBlocks) : Prop :=
  g.hashStart.length < 2 ^ 64 ∧ (∀ h ∈ g.hashStart, h.length = 32) ∧
  g.hashStop.length = 32

instance (g : GetBlocks) : Decidable g.WF := by
  unfold GetBlocks.WF
  infer_instance

/-- GetBlocks.EncodeBinary (getblocks.go): var-uint count, the start hashes,
the stop hash. -/
def GetBlocks.encodeBinary (g : GetBlocks) : List Nat :=
  putVarUint g.hashStart.length ++ g.hashStart.flatten ++ g.hashStop

/-- GetBlocks.DecodeBinary (getblocks.go): read the count, then that many
32-byte start hashes, then the 32-byte stop hash. -/
def GetBlocks.decodeBinary (bs : List Nat) : Option (GetBlocks × List Nat) :=
  Option.bind (getVarUint bs) (fun pn =>
  Option.bind (getHashes pn.1 pn.2) (fun ph =>
  Option.bind (getBytesN 32 ph.2) (fun ps =>
  some (⟨ph.1, ps.1⟩, ps.2))))

theorem getBlocks_roundtrip (g : GetBlocks) (rest : List Nat) (h : g.WF) :
    GetBlocks.decodeBinary (GetBlocks.encodeBinary g ++ rest) = some (g, rest) := by
  obtain ⟨h1, h2, h3⟩ := h
  unfold GetBlocks.encodeBinary GetBlocks.decodeBinary
  simp only [List.append_assoc]
  rw [getVarUint_putVarUint g.hashStart.length _ h1]
  simp only [Option.some_bind]
  rw [getHashes_flatten g.hashStart _ h2]
  simp only [Option.some_bind]
  rw [getBytesN_exact 32 g.hashStop rest h3]
  simp only [Option.some_bind]

/-- One-byte encoding of the `ParamType` list of a publish transaction
(`WriteLE(uint8(param))` per element). -/
def putParams : List Nat → List Nat
  | [] => []
  | p :: ps => putUIntLE 1 p ++ putParams ps

/-- Decoding of `n` one-byte parameter types. -/
def getParams : Nat → List Nat → Option (List Nat × List Nat)
  | 0, bs => some ([], bs)
  | n + 1, bs =>
    Option.bind (getUIntLE 1 bs) (fun pp =>
    Option.bind (getParams n pp.2) (fun pt =>
    some (pp.1 :: pt.1, pt.2)))

theorem getParams_putParams (ps : List Nat) (rest : List Nat)
    (hps : ∀ p ∈ ps, p < 256) :
    getParams ps.length (putParams ps ++ rest) = some (ps, rest) := by
  induction ps with
  | nil => rfl
  | cons p t ih =>
    show getParams (t.length + 1) ((putUIntLE 1 p ++ putParams t) ++ rest) = _
    unfold getParams
    rw [List.append_assoc,
      getUIntLE_putUIntLE 1 p _ (by
        have := hps p (List.mem_cons_self p t)
        norm_num
        omega)]
    simp only [Option.some_bind]
    rw [ih (fun x hx => hps x (List.mem_cons_of_mem p hx))]
    simp only [Option.some_bind]

/-- The publish-transaction body (pkg/core/transaction/publish.go). The
`version` field is the enclosing transaction's version; it is *not* part of
the serialized form and steers whether `needStorage` is written/read. -/
structure PublishTX where
  script : List Nat
  paramList : List Nat
  returnType : Nat
  needStorage : Bool
  name : List Nat
  codeVersion : List Nat
  author : List Nat
  email : List Nat
  description : List Nat
  version : Nat
  deriving DecidableEq

/-- Well-formedness: byte-sized parameter types and return type, var-uint
representable lengths, byte-sized version. -/
def PublishTX.WF (tx : PublishTX) : Prop :=
  tx.script.length < 2 ^ 64 ∧ tx.paramList.length < 2 ^ 64 ∧
  (∀ p ∈ tx.paramList, p < 256) ∧ tx.returnType < 256 ∧
  tx.name.length < 2 ^ 64 ∧ tx.codeVersion.length < 2 ^ 64 ∧
  tx.author.length < 2 ^ 64 ∧ tx.email.length < 2 ^ 64 ∧
  tx.description.length < 2 ^ 64 ∧ tx.version < 256

instance (tx : PublishTX) : Decidable tx.WF := by
  unfold PublishTX.WF
  infer_instance

/-- PublishTX.EncodeBinary (publish.go): the `needStorage` flag is written
only when the transaction version is at least 1. -/
def PublishTX.encodeBinary (tx : PublishTX) : List Nat :=
  putBytes tx.script ++ putVarUint tx.paramList.length ++ putParams tx.paramList ++
  putUIntLE 1 tx.returnType ++
  (if 1 ≤ tx.version then putBool tx.needStorage else []) ++
  putBytes tx.name ++ putBytes tx.codeVersion ++ putBytes tx.author ++
  putBytes tx.email ++ putBytes tx.description

/-- PublishTX.DecodeBinary (publish.go), with the enclosing transaction's
`version` already set on the target value: `needStorage` is read only when
the version is at least 1 and is false otherwise. -/
def PublishTX.decodeBinary (version : Nat) (bs : List Nat) :
    Option (PublishTX × List Nat) :=
  Option.bind (getBytes bs) (fun pScript =>
  Option.bind (getVarUint pScript.2) (fun pn =>
  Option.bind (getParams pn.1 pn.2) (fun pParams =>
  Option.bind (getUIntLE 1 pParams.2) (fun pRet =>
  Option.bind (if 1 ≤ version then getBool pRet.2 else some (false, pRet.2)) (fun pNS =>
  Option.bind (getBytes pNS.2) (fun pName =>
  Option.bind (getBytes pName.2) (fun pCV =>
  Option.bind (getBytes pCV.2) (fun pAuthor =>
  Option.bind (getBytes pAuthor.2) (fun pEmail =>
  Option.bind (getBytes pEmail.2) (fun pDesc =>
  some (⟨pScript.1, pParams.1, pRet.1, pNS.1, pName.1, pCV.1, pAuthor.1,
    pEmail.1, pDesc.1, version⟩, pDesc.2)))))))))))

theorem publishTX_roundtrip (tx : PublishTX) (rest : List Nat) (h : tx.WF)
    (hv : 1 ≤ tx.version ∨ tx.needStorage = false) :
    PublishTX.decodeBinary tx.version (PublishTX.encodeBinary tx ++ rest) =
      some (tx, rest) := by
  obtain ⟨h1, h2, h3, h4, h5, h6, h7, h8, h9, h10⟩ := h
  unfold PublishTX.encodeBinary PublishTX.decodeBinary
  simp only [List.append_assoc]
  rw [getBytes_putBytes tx.script _ h1]
  simp only [Option.some_bind]
  rw [getVarUint_putVarUint tx.paramList.length _ h2]
  simp only [Option.some_bind]
  rw [getParams_putParams tx.paramList _ h3]
  simp only [Option.some_bind]
  rw [getUIntLE_putUIntLE 1 tx.returnType _ (by norm_num; omega)]
  simp only [Option.some_bind]
  by_cases hver : 1 ≤ tx.version
  · rw [if_pos hver, if_pos hver]
    rw [getBool_putBool tx.needStorage _]
    simp only [Option.some_bind]
    rw [getBytes_putBytes tx.name _ h5]
    simp only [Option.some_bind]
    rw [getBytes_putBytes tx.codeVersion _ h6]
    simp only [Option.some_bind]
    rw [getBytes_putBytes tx.author _ h7]
    simp only [Option.some_bind]
    rw [getBytes_putBytes tx.email _ h8]
    simp only [Option.some_bind]
    rw [getBytes_putBytes tx.description rest h9]
    simp only [Option.some_bind]
  · rw [if_neg hver, if_neg hver]
    have hns : tx.needStorage = false := by
      rcases hv with hv | hv
      · exact absurd hv hver
      · exact hv
    simp only [List.nil_append, Option.some_bind]
    rw [getBytes_putBytes tx.name _ h5]
    simp only [Option.some_bind]
    rw [getBytes_putBytes tx.codeVersion _ h6]
    simp only [Option.some_bind]
    rw [getBytes_putBytes tx.author _ h7]
    simp only [Option.some_bind]
    rw [getBytes_putBytes tx.email _ h8]
    simp only [Option.some_bind]
    rw [getBytes_putBytes tx.description rest h9]
    simp only [Option.some_bind]
    rw [← hns]

/-- A version-0 publish transaction with `needStorage = true`: the flag is
representable but never serialized at version 0. -/
def pub0 : PublishTX := ⟨[], [], 0, true, [], [], [], [], [], 0⟩

/-- C9 counterexample: for the version-0 publish transaction with
`needStorage = true`, decoding its encoding yields the value with
`needStorage = false` — the flag is not serialized below version 1, so
`Decode(Encode(x)) = x` fails at this `x`. -/
theorem publish_roundtrip_counterexample :
    PublishTX.decodeBinary pub0.version (PublishTX.encodeBinary pub0) =
      some (⟨[], [], 0, false, [], [], [], [], [], 0⟩, []) ∧
    PublishTX.decodeBinary pub0.version (PublishTX.encodeBinary pub0) ≠
      some (pub0, []) := by
  constructor
  · decide
  · decide

/-- C9 (amended): decoding the bytes produced by encoding yields the
original value for the version payload, the getblocks payload, and — as
long as `NeedStorage` is false whenever the transaction version is below 1
(below which the flag is not serialized) — the publish-transaction body;
all modulo well-formedness (fields fit their declared Go integer types). -/
theorem decode_encode_roundtrip :
    (∀ (p : VersionPayload) (rest : List Nat), p.WF →
      VersionPayload.decodeBinary (VersionPayload.encodeBinary p ++ rest) =
        some (p, rest))
    ∧ (∀ (g : GetBlocks) (rest : List Nat), g.WF →
      GetBlocks.decodeBinary (GetBlocks.encodeBinary g ++ rest) = some (g, rest))
    ∧ (∀ (tx : PublishTX) (rest : List Nat), tx.WF →
      (1 ≤ tx.version ∨ tx.needStorage = false) →
      PublishTX.decodeBinary tx.version (PublishTX.encodeBinary tx ++ rest) =
        some (tx, rest)) :=
  ⟨fun p rest h => versionPayload_roundtrip p rest h,
   fun g rest h => getBlocks_roundtrip g rest h,
   fun tx rest h hv => publishTX_roundtrip tx rest h hv⟩

/-- Witness for C9 (amended) at concrete small payloads. -/
theorem decode_encode_roundtrip_witness :
    VersionPayload.decodeBinary
        (VersionPayload.encodeBinary ⟨0, 1, 2, 3, 4, [9], 5, true⟩ ++ []) =
      some (⟨0, 1, 2, 3, 4, [9], 5, true⟩, []) ∧
    GetBlocks.decodeBinary
        (GetBlocks.encodeBinary ⟨[List.replicate 32 7], List.replicate 32 0⟩ ++ []) =
      some (⟨[List.replicate 32 7], List.replicate 32 0⟩, []) ∧
    PublishTX.decodeBinary 1
        (PublishTX.encodeBinary ⟨[1], [7], 255, true, [2], [], [], [], [], 1⟩ ++ []) =
      some (⟨[1], [7], 255, true, [2], [], [], [], [], 1⟩, []) :=
  ⟨decode_encode_roundtrip.1 _ [] (by decide),
   decode_encode_roundtrip.2.1 _ [] (by decide),
   decode_encode_roundtrip.2.2 _ [] (by decide) (Or.inl (by decide))⟩

end NeoGo
